import Mathlib

/-!
Verification development for the image-loading core of `src/image_loader.py`
(class `ImageLoader`).  The Python code is shallowly embedded: pure helpers
become Lean functions, and the effectful methods (`load_image`,
`_download_image_with_retry`, `load_images_batch`, `clear_cache`) become pure
functions over an explicit environment (`Env`: clock, file system snapshot,
transport oracle, decoder oracle) that also return the list of observable
side effects (`Event`) the call performs, in order.

Conventions of the embedding:
- bytes are `Nat` (0..255) and blobs are `List Nat`;
- a Python function that can raise an exception past its own handlers
  returns `PyResult`;
- Python `None` results are `Option.none`;
- the transport oracle maps the attempt index to the outcome of
  `session.get` followed by `raise_for_status`; a connection drop while
  streaming the body is represented by the attempt-level constructors
  `connError`/`otherError`, a delivered body by its chunk list.
-/

set_option linter.unusedVariables false

/-- Bytes of a character in UTF-8, from its code point (used to feed
`hashlib.md5(url.encode())`). -/
def utf8EncodeChar (n : Nat) : List Nat :=
  if n < 0x80 then [n]
  else if n < 0x800 then
    [0xC0 + n / 64, 0x80 + n % 64]
  else if n < 0x10000 then
    [0xE0 + n / 4096, 0x80 + (n / 64) % 64, 0x80 + n % 64]
  else
    [0xF0 + n / 262144, 0x80 + (n / 4096) % 64, 0x80 + (n / 64) % 64, 0x80 + n % 64]

/-- UTF-8 encoding of a string as a byte list (Python `str.encode()`). -/
def utf8Bytes (s : String) : List Nat :=
  (s.data.map (fun c => utf8EncodeChar c.toNat)).flatten

/-- Python `str.startswith(pre)`. -/
def strStartsWith (s pre : String) : Bool :=
  pre.data.isPrefixOf s.data

/-- Python `str.endswith(suf)`. -/
def strEndsWith (s suf : String) : Bool :=
  suf.data.isSuffixOf s.data

/-- Replace every occurrence of `pat` in the character list, scanning left to
right without overlap, with fuel for termination (Python `str.replace`). -/
def replaceAllFuel (pat rep : List Char) : Nat → List Char → List Char
  | _, [] => []
  | 0, s => s
  | fuel + 1, c :: cs =>
    if pat ≠ [] ∧ pat.isPrefixOf (c :: cs) then
      rep ++ replaceAllFuel pat rep fuel ((c :: cs).drop pat.length)
    else
      c :: replaceAllFuel pat rep fuel cs

/-- Python `s.replace(pat, rep)` for a non-empty pattern. -/
def strReplace (s pat rep : String) : String :=
  String.mk (replaceAllFuel pat.data rep.data s.data.length s.data)

/-! ### MD5 (the `hashlib.md5(...).hexdigest()` used for cache keys) -/

/-- MD5 round constants `K[i] = floor(abs(sin(i+1)) * 2^32)`. -/
def md5K : List Nat :=
  [3614090360, 3905402710, 606105819, 3250441966, 4118548399, 1200080426,
   2821735955, 4249261313, 1770035416, 2336552879, 4294925233, 2304563134,
   1804603682, 4254626195, 2792965006, 1236535329, 4129170786, 3225465664,
   643717713, 3921069994, 3593408605, 38016083, 3634488961, 3889429448,
   568446438, 3275163606, 4107603335, 1163531501, 2850285829, 4243563512,
   1735328473, 2368359562, 4294588738, 2272392833, 1839030562, 4259657740,
   2763975236, 1272893353, 4139469664, 3200236656, 681279174, 3936430074,
   3572445317, 76029189, 3654602809, 3873151461, 530742520, 3299628645,
   4096336452, 1126891415, 2878612391, 4237533241, 1700485571, 2399980690,
   4293915773, 2240044497, 1873313359, 4264355552, 2734768916, 1309151649,
   4149444226, 3174756917, 718787259, 3951481745]

/-- MD5 per-round left-rotation amounts. -/
def md5S : List Nat :=
  [7, 12, 17, 22, 7, 12, 17, 22, 7, 12, 17, 22, 7, 12, 17, 22,
   5, 9, 14, 20, 5, 9, 14, 20, 5, 9, 14, 20, 5, 9, 14, 20,
   4, 11, 16, 23, 4, 11, 16, 23, 4, 11, 16, 23, 4, 11, 16, 23,
   6, 10, 15, 21, 6, 10, 15, 21, 6, 10, 15, 21, 6, 10, 15, 21]

/-- Truncation to a 32-bit word. -/
def m32 (n : Nat) : Nat := n % 4294967296

/-- 32-bit complement (inputs are kept below `2^32`). -/
def not32 (n : Nat) : Nat := 4294967295 - m32 n

/-- 32-bit left rotation. -/
def rotl32 (x s : Nat) : Nat :=
  m32 (x * 2 ^ s) + m32 x / 2 ^ (32 - s)

/-- Little-endian 32-bit word `j` of a 64-byte block. -/
def md5Word (block : List Nat) (j : Nat) : Nat :=
  block.getD (4 * j) 0 + 256 * block.getD (4 * j + 1) 0 +
    65536 * block.getD (4 * j + 2) 0 + 16777216 * block.getD (4 * j + 3) 0

/-- One MD5 round, updating the state `(a, b, c, d)` with round index `i`. -/
def md5Round (block : List Nat) (st : Nat × Nat × Nat × Nat) (i : Nat) :
    Nat × Nat × Nat × Nat :=
  let (a, b, c, d) := st
  let (f, g) :=
    if i < 16 then (Nat.lor (Nat.land b c) (Nat.land (not32 b) d), i)
    else if i < 32 then (Nat.lor (Nat.land d b) (Nat.land (not32 d) c), (5 * i + 1) % 16)
    else if i < 48 then (Nat.xor (Nat.xor b c) d, (3 * i + 5) % 16)
    else (Nat.xor c (Nat.lor b (not32 d)), (7 * i) % 16)
  let f := m32 (f + a + md5K.getD i 0 + md5Word block g)
  (d, m32 (b + rotl32 f (md5S.getD i 0)), b, c)

/-- Process one 64-byte block, updating the running digest state. -/
def md5Block (h : Nat × Nat × Nat × Nat) (block : List Nat) :
    Nat × Nat × Nat × Nat :=
  let (a0, b0, c0, d0) := h
  let (a, b, c, d) := (List.range 64).foldl (md5Round block) (a0, b0, c0, d0)
  (m32 (a0 + a), m32 (b0 + b), m32 (c0 + c), m32 (d0 + d))

/-- Split a byte list into chunks of `n`, with fuel for termination. -/
def chunkListFuel (n : Nat) : Nat → List Nat → List (List Nat)
  | _, [] => []
  | 0, _ => []
  | fuel + 1, l => l.take n :: chunkListFuel n fuel (l.drop n)

/-- MD5 padding: `0x80`, zeros to 56 mod 64, then the bit length as 8
little-endian bytes. -/
def md5Pad (msg : List Nat) : List Nat :=
  let len := msg.length
  let zeros := (119 - len % 64) % 64
  msg ++ [128] ++ List.replicate zeros 0 ++
    ((List.range 8).map (fun i => (8 * len / 256 ^ i) % 256))

/-- Little-endian 4-byte serialization of a 32-bit word. -/
def le4 (w : Nat) : List Nat :=
  [w % 256, (w / 256) % 256, (w / 65536) % 256, (w / 16777216) % 256]

/-- The MD5 digest (16 bytes) of a byte list. -/
def md5Digest (msg : List Nat) : List Nat :=
  let padded := md5Pad msg
  let blocks := chunkListFuel 64 padded.length padded
  let (a, b, c, d) :=
    blocks.foldl md5Block (1732584193, 4023233417, 2562383102, 271733878)
  le4 a ++ le4 b ++ le4 c ++ le4 d

/-- Lower-case hexadecimal digit. -/
def hexDigit (n : Nat) : Char :=
  if n < 10 then Char.ofNat (48 + n) else Char.ofNat (87 + n)

/-- Lower-case hex string of a byte list (`hexdigest()`). -/
def hexOfBytes (bs : List Nat) : String :=
  String.mk ((bs.map (fun b => [hexDigit (b / 16), hexDigit (b % 16)])).flatten)

/-- `hashlib.md5(s.encode()).hexdigest()`. -/
def md5hex (s : String) : String :=
  hexOfBytes (md5Digest (utf8Bytes s))

/-! ### Loader configuration (`ImageLoader.__init__`) -/

/-- Configuration attributes set in `ImageLoader.__init__`.  Numbers are the
parsed environment values; the defaults below are the code's defaults. -/
structure Config where
  cache_dir : String := "image_cache"
  max_cache_age : Nat := 24 * 3600
  timeout : Nat := 20
  max_retries : Nat := 3
  max_workers : Nat := 5
  max_image_size : Nat := 10 * 1024 * 1024
  proxy_enabled : Bool := true
  proxy_width : String := "800"
  proxy_quality : String := "80"
  deriving Repr, DecidableEq

/-- The configuration obtained with every environment variable unset. -/
def defaultConfig : Config := {}

/-- `ImageLoader._get_cache_path`: cache-dir slash md5-hex of the url,
with the `.cache` suffix. -/
def get_cache_path (cfg : Config) (url : String) : String :=
  cfg.cache_dir ++ "/" ++ md5hex url ++ ".cache"

/-- `ImageLoader._apply_image_proxy`: rewrite through images.weserv.nl when
the proxy is enabled and the url starts with `http`. -/
def apply_image_proxy (cfg : Config) (url : String) : String :=
  if !cfg.proxy_enabled || !strStartsWith url "http" then url
  else
    let no_scheme := strReplace (strReplace url "https://" "") "http://" ""
    "https://images.weserv.nl/?url=" ++ no_scheme ++ "&w=" ++ cfg.proxy_width ++
      "&q=" ++ cfg.proxy_quality ++ "&output=webp"

/-! ### Observable effects and the environment -/

/-- Observable side effects of a loader call, in program order. -/
inductive Event where
  /-- `session.get(url, timeout=..., stream=True)` was invoked. -/
  | netRequest (url : String) (timeout : Nat)
  /-- one chunk of `size` bytes was pulled from `response.iter_content`. -/
  | chunkRead (size : Nat)
  /-- `time.sleep(duration)` between retry attempts. -/
  | sleep (duration : Nat)
  /-- `open(path, 'wb').write(data)`: direct write of `data` to `path`. -/
  | fsWrite (path : String) (data : List Nat)
  /-- `os.remove(path)` succeeded. -/
  | fsRemove (path : String)
  /-- `os.rename(src, dst)` (never emitted by this code; present so the
  write-then-rename discipline the spec describes is expressible). -/
  | fsRename (src dst : String)
  deriving Repr, DecidableEq

/-- Outcome of `session.get` plus `raise_for_status` for one attempt. -/
inductive TransportResult where
  /-- `requests.exceptions.Timeout`. -/
  | timeout
  /-- `requests.exceptions.ConnectionError`. -/
  | connError
  /-- any other exception out of the request. -/
  | otherError
  /-- a response with its status code, parsed `content-length` header (if a
  valid one is present) and body chunks as yielded by `iter_content`. -/
  | response (status : Nat) (contentLength : Option Nat) (chunks : List (List Nat))
  deriving Repr, DecidableEq

/-- A PIL image as far as this code observes it: its `mode` string and its
current size. -/
structure PILImage where
  mode : String
  width : Nat
  height : Nat
  deriving Repr, DecidableEq

/-- A cached file on disk: raw bytes plus its mtime. -/
structure FileEntry where
  content : List Nat
  mtime : Nat
  deriving Repr, DecidableEq

/-- Result of a Python call: a value, or an exception escaping the call. -/
inductive PyResult (α : Type) where
  | ok (val : α)
  | exc
  deriving Repr, DecidableEq

/-- The external world a call runs against: the clock, a snapshot of the
cache directory, the PIL decoder and the network transport. -/
structure Env where
  /-- `time.time()`. -/
  now : Nat
  /-- contents of the file at a path, if it exists. -/
  fs : String → Option FileEntry
  /-- cache-directory listing (`os.listdir`), file names only. -/
  listing : List String
  /-- `os.path.exists(cache_dir)`. -/
  dirExists : Bool
  /-- `PIL.Image.open` on a byte blob: `none` when it raises. -/
  decode : List Nat → Option PILImage
  /-- whether `os.remove(path)` succeeds (`false`: raises `OSError`). -/
  removeOk : String → Bool
  /-- transport outcome of the download attempt with the given index. -/
  transport : Nat → TransportResult

/-! ### PIL post-processing as the code uses it -/

/-- `img.convert('RGB')` (PIL): flattens to an opaque 3-channel image. -/
def convertRGB (img : PILImage) : PILImage :=
  { img with mode := "RGB" }

/-- `img.thumbnail(target, LANCZOS)` (PIL): shrink in place to fit inside
`target`, preserving aspect ratio, never upscaling; the mode is unchanged.
Dimension rounding is approximated in integer arithmetic (PIL rounds with
floats), which no claim depends on. -/
def thumbnailFit (target : Nat × Nat) (img : PILImage) : PILImage :=
  let (tw, th) := target
  if img.width ≤ tw ∧ img.height ≤ th then img
  else
    let w1 := min tw (if img.height = 0 then tw else max 1 (img.width * th / img.height))
    let h1 := min th (if img.width = 0 then th else max 1 (img.height * tw / img.width))
    { img with width := w1, height := h1 }

/-- Apply the optional `target_size` argument (`img.thumbnail` when given). -/
def applyTarget (ts : Option (Nat × Nat)) (img : PILImage) : PILImage :=
  match ts with
  | none => img
  | some t => thumbnailFit t img

/-! ### `_download_image_with_retry` -/

/-- The streaming loop over `response.iter_content` (lines 107-117): skip
empty chunks, accumulate the rest, abort with `None` as soon as the
accumulated size exceeds `maxSize`.  `downloaded` is the running byte count,
`acc` the bytes gathered so far; the events record each chunk actually pulled
from the transport. -/
def streamChunks (maxSize : Nat) : List (List Nat) → Nat → List Nat →
    Option (List Nat) × List Event
  | [], _, acc => (some acc, [])
  | c :: rest, downloaded, acc =>
    if c.isEmpty then
      let (r, evs) := streamChunks maxSize rest downloaded acc
      (r, Event.chunkRead 0 :: evs)
    else
      let d := downloaded + c.length
      if maxSize < d then (none, [Event.chunkRead c.length])
      else
        let (r, evs) := streamChunks maxSize rest d (acc ++ c)
        (r, Event.chunkRead c.length :: evs)

/-- One attempt's classification (the body of the `try`, lines 97-138).
`none` in the first component means a transient error (the loop continues);
`some none` means the attempt returned `None` (permanent: 404, oversized
header, oversized mid-stream); `some (some data)` is a successful download. -/
def attemptOutcome (cfg : Config) (res : TransportResult) :
    Option (Option (List Nat)) × List Event :=
  match res with
  | .timeout => (none, [])
  | .connError => (none, [])
  | .otherError => (none, [])
  | .response status contentLength chunks =>
    if 400 ≤ status then
      -- raise_for_status raised an HTTPError
      if status = 404 then (some none, []) else (none, [])
    else
      match contentLength with
      | some n =>
        if cfg.max_image_size < n then (some none, [])
        else
          match streamChunks cfg.max_image_size chunks 0 [] with
          | (some data, evs) => (some (some data), evs)
          | (none, evs) => (some none, evs)
      | none =>
        match streamChunks cfg.max_image_size chunks 0 [] with
        | (some data, evs) => (some (some data), evs)
        | (none, evs) => (some none, evs)

/-- The retry loop (`for attempt in range(self.max_retries)`), with
`remaining` iterations left and `attempt` the current 0-based index.  The
per-attempt timeout is `timeout + attempt * 5`; a transient failure sleeps
`2^attempt` when attempts remain, then retries. -/
def downloadLoop (cfg : Config) (transport : Nat → TransportResult)
    (purl : String) : Nat → Nat → Option (List Nat) × List Event
  | 0, _ => (none, [])
  | remaining + 1, attempt =>
    let req := Event.netRequest purl (cfg.timeout + attempt * 5)
    match attemptOutcome cfg (transport attempt) with
    | (some r, evs) => (r, req :: evs)
    | (none, evs) =>
      let sleepEvs := if attempt < cfg.max_retries - 1
        then [Event.sleep (2 ^ attempt)] else []
      let (r, evs2) := downloadLoop cfg transport purl remaining (attempt + 1)
      (r, req :: (evs ++ sleepEvs ++ evs2))

/-- `ImageLoader._download_image_with_retry`: proxy rewrite, then up to
`max_retries` attempts. -/
def download_image_with_retry (cfg : Config) (transport : Nat → TransportResult)
    (url : String) : Option (List Nat) × List Event :=
  downloadLoop cfg transport (apply_image_proxy cfg url) cfg.max_retries 0

/-! ### `load_image` -/

/-- `ImageLoader._is_cache_valid`: the file exists and is younger than
`max_cache_age`. -/
def is_cache_valid (env : Env) (cfg : Config) (path : String) : Bool :=
  match env.fs path with
  | none => false
  | some e => decide (env.now - e.mtime < cfg.max_cache_age)

/-- Lines 175-198 of `load_image`: write the downloaded bytes to the cache
path, decode, convert `RGBA`/`LA`/`P` to `RGB`, apply `target_size`.  On a
decode failure the just-written cache file is removed (an `os.remove` failure
there escapes the call). -/
def processDownloaded (env : Env) (cache_path : String) (data : List Nat)
    (ts : Option (Nat × Nat)) : PyResult (Option PILImage) × List Event :=
  let wr := Event.fsWrite cache_path data
  match env.decode data with
  | some img =>
    let img := if img.mode = "RGBA" ∨ img.mode = "LA" ∨ img.mode = "P"
      then convertRGB img else img
    (.ok (some (applyTarget ts img)), [wr])
  | none =>
    if env.removeOk cache_path then (.ok none, [wr, Event.fsRemove cache_path])
    else (.exc, [wr])

/-- Lines 170-198 of `load_image`: download (empty bytes count as a failed
download, `if not image_data`), then cache-write and post-process. -/
def fetchAndProcess (env : Env) (cfg : Config) (url : String)
    (ts : Option (Nat × Nat)) : PyResult (Option PILImage) × List Event :=
  match download_image_with_retry cfg env.transport url with
  | (none, evs) => (.ok none, evs)
  | (some data, evs) =>
    if data.isEmpty then (.ok none, evs)
    else
      let (r, evs2) := processDownloaded env (get_cache_path cfg url) data ts
      (r, evs ++ evs2)

/-- `ImageLoader.load_image`: guard, cache lookup (with corruption
invalidation), then the download path. -/
def load_image (env : Env) (cfg : Config) (url : String)
    (ts : Option (Nat × Nat)) : PyResult (Option PILImage) × List Event :=
  if url.data.isEmpty || !strStartsWith url "http" then (.ok none, [])
  else
    let cache_path := get_cache_path cfg url
    if is_cache_valid env cfg cache_path then
      match env.fs cache_path with
      | some entry =>
        match env.decode entry.content with
        | some img => (.ok (some (applyTarget ts img)), [])
        | none =>
          -- corrupted cache: remove it and fall through to the download
          if env.removeOk cache_path then
            let (r, evs) := fetchAndProcess env cfg url ts
            (r, Event.fsRemove cache_path :: evs)
          else (.exc, [])
      | none => fetchAndProcess env cfg url ts
    else fetchAndProcess env cfg url ts

/-! ### `load_images_batch` -/

/-- The URL filter of `load_images_batch`:
`url and url.startswith('http')`. -/
def validUrl (u : String) : Bool :=
  !u.data.isEmpty && strStartsWith u "http"

/-- The entry the batch records for one URL: `future.result()` guarded by
`try/except`, so an exception escaping `load_image` becomes a `None` entry. -/
def pyBatchValue (env : Env) (cfg : Config) (ts : Option (Nat × Nat))
    (u : String) : Option PILImage :=
  match (load_image env cfg u ts).fst with
  | .ok v => v
  | .exc => none

/-- `ImageLoader.load_images_batch` as the key-value map it returns (an
association list).  The thread pool's completion order only affects dict
insertion order, not the mapping, so the map content is modeled; duplicate
URLs collapse to one key exactly as in the Python `results` dict. -/
def load_images_batch (env : Env) (cfg : Config) (urls : List String)
    (ts : Option (Nat × Nat)) : List (String × Option PILImage) :=
  if urls.isEmpty then []
  else
    let valid_urls := urls.filter validUrl
    if valid_urls.isEmpty then []
    else valid_urls.dedup.map (fun u => (u, pyBatchValue env cfg ts u))

/-! ### `clear_cache` -/

/-- The sweep loop of `clear_cache`: for each listed `.cache` file, if it is
strictly older than `maxAgeSeconds`, try `os.remove` (a failure is logged and
the loop continues).  `os.path.getmtime` on a file missing from the snapshot
raises an uncaught exception. -/
def clearLoop (env : Env) (cfg : Config) (maxAgeSeconds : Nat) :
    List String → PyResult Unit × List Event
  | [] => (.ok (), [])
  | f :: rest =>
    if strEndsWith f ".cache" then
      let path := cfg.cache_dir ++ "/" ++ f
      match env.fs path with
      | none => (.exc, [])
      | some e =>
        if maxAgeSeconds < env.now - e.mtime then
          if env.removeOk path then
            let (r, evs) := clearLoop env cfg maxAgeSeconds rest
            (r, Event.fsRemove path :: evs)
          else clearLoop env cfg maxAgeSeconds rest
        else clearLoop env cfg maxAgeSeconds rest
    else clearLoop env cfg maxAgeSeconds rest

/-- `ImageLoader.clear_cache(max_age_hours)`: sweeps the cache directory and
logs the removed count.  The Python function has no `return` statement with a
value, so a successful call returns `None` — modeled as `Option Nat` to state
what an integer return would be. -/
def clear_cache (env : Env) (cfg : Config) (max_age_hours : Nat) :
    PyResult (Option Nat) × List Event :=
  if !env.dirExists then (.ok none, [])
  else
    match clearLoop env cfg (max_age_hours * 3600) env.listing with
    | (.ok _, evs) => (.ok none, evs)
    | (.exc, evs) => (.exc, evs)

/-! ### Trace observations -/

/-- Whether an event is a transport request. -/
def isNetRequest : Event → Bool
  | .netRequest _ _ => true
  | _ => false

/-- Whether an event is a chunk read. -/
def isChunkRead : Event → Bool
  | .chunkRead _ => true
  | _ => false

/-- Events that do not touch the file system. -/
def eventReadonly : Event → Bool
  | .netRequest _ _ => true
  | .chunkRead _ => true
  | .sleep _ => true
  | _ => false

/-- File-system events that target exactly the path `cp`. -/
def fsTargets (cp : String) : Event → Bool
  | .fsWrite p _ => p == cp
  | .fsRemove p => p == cp
  | _ => false

/-- Number of `session.get` invocations in a trace. -/
def netRequestCount (tr : List Event) : Nat :=
  tr.countP isNetRequest

/-- The back-off sleeps of a trace, in order. -/
def sleepDurations (tr : List Event) : List Nat :=
  tr.filterMap (fun e => match e with | .sleep d => some d | _ => none)

/-- Number of chunks pulled from the network in a trace. -/
def chunkReadCount (tr : List Event) : Nat :=
  tr.countP isChunkRead

/-- Whether an event is a file write. -/
def isWrite : Event → Bool
  | .fsWrite _ _ => true
  | _ => false

/-- Number of file writes in a trace. -/
def writeCount (tr : List Event) : Nat :=
  tr.countP isWrite

/-- Whether a trace contains any rename at all. -/
def hasRename (tr : List Event) : Bool :=
  tr.any (fun e => match e with | .fsRename _ _ => true | _ => false)

/-- The paths removed by a trace, in order. -/
def removedPaths (tr : List Event) : List String :=
  tr.filterMap (fun e => match e with | .fsRemove p => some p | _ => none)

/-- Sum of the chunk sizes of a body prefix. -/
def sumLens (chunks : List (List Nat)) : Nat :=
  (chunks.map List.length).sum

/-- Modelled from the spec: the write-then-rename discipline §4.2 and the
shared-resource policy describe for `put` — the blob lands at a temporary
path first and is then renamed onto the final path. -/
def specPutWriteThenRename (tr : List Event) (finalPath : String) : Prop :=
  ∃ tmp d, Event.fsWrite tmp d ∈ tr ∧ Event.fsRename tmp finalPath ∈ tr

/-- A baseline external world for concrete instantiations: empty cache
directory, a decoder producing a 6x4 RGBA image, a transport delivering one
3-byte chunk with status 200. -/
def baseEnv : Env where
  now := 0
  fs := fun _ => none
  listing := []
  dirExists := true
  decode := fun _ => some ⟨"RGBA", 6, 4⟩
  removeOk := fun _ => true
  transport := fun _ => .response 200 none [[1, 2, 3]]

/-- A transport that always times out. -/
def envTimeout : Env := { baseEnv with transport := fun _ => .timeout }

/-- A transport always answering HTTP 404. -/
def env404 : Env := { baseEnv with transport := fun _ => .response 404 none [] }

/-- A loader configuration with a 4-byte blob-size cap. -/
def cfgTiny : Config := { defaultConfig with max_image_size := 4 }

/-- A transport streaming 8 body bytes in three chunks with no length
header (more than `cfgTiny` allows, exceeding the cap at the second chunk). -/
def envStream : Env :=
  { baseEnv with transport := fun _ => .response 200 none [[1, 1, 1], [1, 1, 1], [9, 9]] }

/-- A transport advertising a 99-byte content length (more than `cfgTiny`
allows) before any body chunk. -/
def envHeader : Env :=
  { baseEnv with transport := fun _ => .response 200 (some 99) [[1, 2, 3]] }

/-- A world where every path holds a fresh cache entry and every blob
decodes to a 6x4 RGBA image. -/
def envCacheHit : Env := { baseEnv with fs := fun _ => some ⟨[7], 0⟩ }

/-- A world with a fresh cache entry everywhere whose bytes fail to decode,
and a transport that always times out. -/
def envCorrupt : Env :=
  { baseEnv with
    fs := (fun _ => some ⟨[7], 0⟩)
    decode := (fun _ => none)
    transport := (fun _ => .timeout) }

/-- Like `envCorrupt`, but `os.remove` fails, so `load_image` raises. -/
def envCorruptNoRemove : Env := { envCorrupt with removeOk := fun _ => false }

/-- A cache directory holding one stale entry. -/
def envSweepOne : Env :=
  { baseEnv with now := 100000, listing := ["old.cache"], fs := fun _ => some ⟨[], 0⟩ }

/-- A cache directory with two stale entries (one of which cannot be
removed), one fresh entry, and one non-`.cache` file. -/
def envSweepMany : Env :=
  { baseEnv with
    now := 100000
    listing := ["old1.cache", "bad.cache", "new.cache", "x.txt"]
    fs := (fun p => if p == "image_cache/new.cache" then some ⟨[], 100000⟩
      else some ⟨[], 0⟩)
    removeOk := (fun p => !(p == "image_cache/bad.cache")) }


/-! ## Helper lemmas on trace observations -/

theorem netRequestCount_cons (e : Event) (tr : List Event) :
    netRequestCount (e :: tr) = (if isNetRequest e then 1 else 0) + netRequestCount tr := by
  simp [netRequestCount, List.countP_cons]
  split <;> omega

theorem netRequestCount_append (a b : List Event) :
    netRequestCount (a ++ b) = netRequestCount a + netRequestCount b := by
  simp [netRequestCount, List.countP_append]

theorem sleepDurations_cons (e : Event) (tr : List Event) :
    sleepDurations (e :: tr)
      = (match e with | .sleep d => [d] | _ => []) ++ sleepDurations tr := by
  cases e <;> simp [sleepDurations, List.filterMap_cons]

theorem sleepDurations_append (a b : List Event) :
    sleepDurations (a ++ b) = sleepDurations a ++ sleepDurations b := by
  simp [sleepDurations, List.filterMap_append]

theorem chunkReadCount_cons (e : Event) (tr : List Event) :
    chunkReadCount (e :: tr) = (if isChunkRead e then 1 else 0) + chunkReadCount tr := by
  simp [chunkReadCount, List.countP_cons]
  split <;> omega

theorem chunkReadCount_append (a b : List Event) :
    chunkReadCount (a ++ b) = chunkReadCount a + chunkReadCount b := by
  simp [chunkReadCount, List.countP_append]

theorem writeCount_append (a b : List Event) :
    writeCount (a ++ b) = writeCount a + writeCount b := by
  simp [writeCount, List.countP_append]

theorem removedPaths_append (a b : List Event) :
    removedPaths (a ++ b) = removedPaths a ++ removedPaths b := by
  simp [removedPaths, List.filterMap_append]

/-- Traces consisting only of chunk reads have no requests, sleeps, writes or
removals, and their chunk-read count is their length. -/
theorem counts_of_all_chunkRead (l : List Event) (h : l.all isChunkRead = true) :
    netRequestCount l = 0 ∧ sleepDurations l = [] ∧ writeCount l = 0 ∧
      chunkReadCount l = l.length ∧ removedPaths l = [] := by
  induction l with
  | nil => simp [netRequestCount, sleepDurations, writeCount, chunkReadCount, removedPaths]
  | cons e t ih =>
    simp only [List.all_cons, Bool.and_eq_true] at h
    obtain ⟨he, ht⟩ := h
    obtain ⟨h1, h2, h3, h4, h5⟩ := ih ht
    cases e with
    | chunkRead s =>
      simp_all [netRequestCount, sleepDurations, writeCount, chunkReadCount,
        removedPaths, List.countP_cons, List.filterMap_cons, isChunkRead, isNetRequest, isWrite]
    | netRequest u n => simp [isChunkRead] at he
    | sleep d => simp [isChunkRead] at he
    | fsWrite p d => simp [isChunkRead] at he
    | fsRemove p => simp [isChunkRead] at he
    | fsRename s d => simp [isChunkRead] at he

/-- Read-only traces have no writes, removals or renames. -/
theorem counts_of_all_readonly (l : List Event) (h : l.all eventReadonly = true) :
    writeCount l = 0 ∧ removedPaths l = [] ∧ hasRename l = false := by
  induction l with
  | nil => simp [writeCount, removedPaths, hasRename]
  | cons e t ih =>
    simp only [List.all_cons, Bool.and_eq_true] at h
    obtain ⟨he, ht⟩ := h
    obtain ⟨h1, h2, h3⟩ := ih ht
    cases e with
    | netRequest u n =>
      simp_all [writeCount, removedPaths, hasRename, List.countP_cons,
        List.filterMap_cons, eventReadonly, isWrite]
    | chunkRead s =>
      simp_all [writeCount, removedPaths, hasRename, List.countP_cons,
        List.filterMap_cons, eventReadonly, isWrite]
    | sleep d =>
      simp_all [writeCount, removedPaths, hasRename, List.countP_cons,
        List.filterMap_cons, eventReadonly, isWrite]
    | fsWrite p d => simp [eventReadonly] at he
    | fsRemove p => simp [eventReadonly] at he
    | fsRename s d => simp [eventReadonly] at he

/-! ## Lemmas about the streaming loop -/

theorem sumLens_nil : sumLens [] = 0 := rfl

theorem sumLens_cons (c : List Nat) (rest : List (List Nat)) :
    sumLens (c :: rest) = c.length + sumLens rest := by
  simp [sumLens]

theorem streamChunks_nil (m dl : Nat) (acc : List Nat) :
    streamChunks m [] dl acc = (some acc, []) := rfl

theorem streamChunks_cons_empty (m : Nat) (c : List Nat) (rest : List (List Nat))
    (dl : Nat) (acc : List Nat) (hc : c.isEmpty = true) :
    streamChunks m (c :: rest) dl acc =
      ((streamChunks m rest dl acc).fst,
        Event.chunkRead 0 :: (streamChunks m rest dl acc).snd) := by
  rcases hs : streamChunks m rest dl acc with ⟨r, evs⟩
  simp [streamChunks, hc, hs]

theorem streamChunks_cons_over (m : Nat) (c : List Nat) (rest : List (List Nat))
    (dl : Nat) (acc : List Nat) (hc : c.isEmpty = false) (hover : m < dl + c.length) :
    streamChunks m (c :: rest) dl acc = (none, [Event.chunkRead c.length]) := by
  simp [streamChunks, hc, hover]

theorem streamChunks_cons_ok (m : Nat) (c : List Nat) (rest : List (List Nat))
    (dl : Nat) (acc : List Nat) (hc : c.isEmpty = false) (hok : ¬ m < dl + c.length) :
    streamChunks m (c :: rest) dl acc =
      ((streamChunks m rest (dl + c.length) (acc ++ c)).fst,
        Event.chunkRead c.length :: (streamChunks m rest (dl + c.length) (acc ++ c)).snd) := by
  rcases hs : streamChunks m rest (dl + c.length) (acc ++ c) with ⟨r, evs⟩
  simp [streamChunks, hc, hok, hs]

/-- Every event of the streaming loop is a chunk read. -/
theorem streamChunks_all_chunkRead (m : Nat) (chunks : List (List Nat)) :
    ∀ dl acc, ((streamChunks m chunks dl acc).snd).all isChunkRead = true := by
  induction chunks with
  | nil => intro dl acc; simp [streamChunks_nil]
  | cons c rest ih =>
    intro dl acc
    cases hc : c.isEmpty with
    | true =>
      rw [streamChunks_cons_empty m c rest dl acc hc]
      simp [isChunkRead, ih dl acc]
    | false =>
      by_cases hover : m < dl + c.length
      · rw [streamChunks_cons_over m c rest dl acc hc hover]
        simp [isChunkRead]
      · rw [streamChunks_cons_ok m c rest dl acc hc hover]
        simp [isChunkRead, ih (dl + c.length) (acc ++ c)]

/-- If the accumulated size passes `m` within the first `j+1` chunks, the
streaming loop returns `none` and pulls at most `j+1` chunks. -/
theorem streamChunks_oversized (m : Nat) (chunks : List (List Nat)) :
    ∀ dl acc j, dl ≤ m → m < dl + sumLens (chunks.take (j + 1)) →
      (streamChunks m chunks dl acc).fst = none ∧
        (streamChunks m chunks dl acc).snd.length ≤ j + 1 := by
  induction chunks with
  | nil =>
    intro dl acc j hdl hover
    rw [List.take_nil] at hover
    simp [sumLens_nil] at hover
    omega
  | cons c rest ih =>
    intro dl acc j hdl hover
    rw [List.take_succ_cons, sumLens_cons] at hover
    cases hc : c.isEmpty with
    | true =>
      have hc0 : c.length = 0 := by
        cases c with
        | nil => rfl
        | cons x xs => simp at hc
      rw [streamChunks_cons_empty m c rest dl acc hc]
      cases j with
      | zero =>
        rw [List.take_zero] at hover
        rw [sumLens_nil] at hover
        omega
      | succ j' =>
        have hrec := ih dl acc j' hdl (by omega)
        constructor
        · exact hrec.1
        · simp only [List.length_cons]
          omega
    | false =>
      by_cases hov1 : m < dl + c.length
      · rw [streamChunks_cons_over m c rest dl acc hc hov1]
        simp
      · rw [streamChunks_cons_ok m c rest dl acc hc hov1]
        cases j with
        | zero =>
          rw [List.take_zero] at hover
          rw [sumLens_nil] at hover
          omega
        | succ j' =>
          have hrec := ih (dl + c.length) (acc ++ c) j' (by omega) (by omega)
          constructor
          · exact hrec.1
          · simp only [List.length_cons]
            omega

/-! ## Lemmas about one download attempt -/

theorem attempt_timeout (cfg : Config) : attemptOutcome cfg .timeout = (none, []) := rfl

theorem attempt_404 (cfg : Config) (cl : Option Nat) (chunks : List (List Nat)) :
    attemptOutcome cfg (.response 404 cl chunks) = (some none, []) := by
  simp [attemptOutcome]

/-- Helper: chunk reads are read-only events. -/
theorem all_readonly_of_all_chunkRead (l : List Event) (h : l.all isChunkRead = true) :
    l.all eventReadonly = true := by
  rw [List.all_eq_true] at *
  intro e he
  have := h e he
  cases e <;> simp_all [isChunkRead, eventReadonly]

/-- Helper: weaken an `all p` to an `all (p or q)`. -/
theorem all_or_left {α : Type} (l : List α) (p q : α → Bool) (h : l.all p = true) :
    l.all (fun e => p e || q e) = true := by
  rw [List.all_eq_true] at *
  intro e he
  simp [h e he]

/-- Every event of one attempt is a chunk read. -/
theorem attempt_events_chunkRead (cfg : Config) (r : TransportResult) :
    ((attemptOutcome cfg r).snd).all isChunkRead = true := by
  cases r with
  | timeout => rfl
  | connError => rfl
  | otherError => rfl
  | response status cl chunks =>
    have hall := streamChunks_all_chunkRead cfg.max_image_size chunks 0 []
    rcases hs : streamChunks cfg.max_image_size chunks 0 [] with ⟨r', evs⟩
    rw [hs] at hall
    by_cases h4 : 400 ≤ status
    · simp only [attemptOutcome, if_pos h4]
      split <;> simp
    · cases cl with
      | none =>
        simp only [attemptOutcome, if_neg h4, hs]
        cases r' <;> simpa using hall
      | some n =>
        simp only [attemptOutcome, if_neg h4]
        by_cases hn : cfg.max_image_size < n
        · simp [hn]
        · simp only [if_neg hn, hs]
          cases r' <;> simpa using hall

/-- An attempt whose response is oversized (by header or by accumulated
stream size) returns `None` immediately; its events are bounded by where the
size cap was hit. -/
theorem attempt_oversized (cfg : Config) (status : Nat) (cl : Option Nat)
    (chunks : List (List Nat)) (hst : status < 400)
    (hover : (∃ n, cl = some n ∧ cfg.max_image_size < n) ∨
      cfg.max_image_size < sumLens chunks) :
    (attemptOutcome cfg (.response status cl chunks)).fst = some none ∧
      (∀ n, cl = some n → cfg.max_image_size < n →
        (attemptOutcome cfg (.response status cl chunks)).snd = []) ∧
      (∀ j, cfg.max_image_size < sumLens (chunks.take (j + 1)) →
        ((attemptOutcome cfg (.response status cl chunks)).snd).length ≤ j + 1) := by
  have h4 : ¬ 400 ≤ status := by omega
  have hmid : cfg.max_image_size < sumLens chunks →
      (streamChunks cfg.max_image_size chunks 0 []).fst = none := by
    intro hm
    have htake : chunks.take (chunks.length + 1) = chunks :=
      List.take_of_length_le (by omega)
    have := streamChunks_oversized cfg.max_image_size chunks 0 [] chunks.length
      (Nat.zero_le _) (by rw [htake]; omega)
    exact this.1
  have hbound : ∀ j, cfg.max_image_size < sumLens (chunks.take (j + 1)) →
      ((streamChunks cfg.max_image_size chunks 0 []).snd).length ≤ j + 1 := by
    intro j hj
    exact (streamChunks_oversized cfg.max_image_size chunks 0 [] j (Nat.zero_le _)
      (by omega)).2
  cases cl with
  | none =>
    have hm : cfg.max_image_size < sumLens chunks := by
      rcases hover with ⟨n, hn, _⟩ | hm
      · exact absurd hn (by simp)
      · exact hm
    rcases hs : streamChunks cfg.max_image_size chunks 0 [] with ⟨r', evs⟩
    have hr' : r' = none := by have := hmid hm; rw [hs] at this; exact this
    subst hr'
    refine ⟨?_, ?_, ?_⟩
    · simp [attemptOutcome, if_neg h4, hs]
    · intro n hn; exact absurd hn (by simp)
    · intro j hj
      have := hbound j hj
      rw [hs] at this
      simpa [attemptOutcome, if_neg h4, hs] using this
  | some n =>
    by_cases hn : cfg.max_image_size < n
    · refine ⟨?_, ?_, ?_⟩
      · simp [attemptOutcome, if_neg h4, hn]
      · intro n' hn' _
        simp [attemptOutcome, if_neg h4, hn]
      · intro j hj
        simp [attemptOutcome, if_neg h4, hn]
    · have hm : cfg.max_image_size < sumLens chunks := by
        rcases hover with ⟨n', hn', hlt⟩ | hm
        · rw [Option.some_inj] at hn'
          omega
        · exact hm
      rcases hs : streamChunks cfg.max_image_size chunks 0 [] with ⟨r', evs⟩
      have hr' : r' = none := by have := hmid hm; rw [hs] at this; exact this
      subst hr'
      refine ⟨?_, ?_, ?_⟩
      · simp [attemptOutcome, if_neg h4, if_neg hn, hs]
      · intro n' hn' hlt
        rw [Option.some_inj] at hn'
        omega
      · intro j hj
        have := hbound j hj
        rw [hs] at this
        simpa [attemptOutcome, if_neg h4, if_neg hn, hs] using this

/-! ## Lemmas about the retry loop -/

theorem downloadLoop_zero (cfg : Config) (t : Nat → TransportResult) (purl : String)
    (att : Nat) : downloadLoop cfg t purl 0 att = (none, []) := rfl

/-- An attempt that returns (`404`, oversized, or a successful body) ends the
loop at once. -/
theorem downloadLoop_succ_permanent (cfg : Config) (t : Nat → TransportResult)
    (purl : String) (rem att : Nat) (r : Option (List Nat)) (evs : List Event)
    (h : attemptOutcome cfg (t att) = (some r, evs)) :
    downloadLoop cfg t purl (rem + 1) att =
      (r, Event.netRequest purl (cfg.timeout + att * 5) :: evs) := by
  simp [downloadLoop, h]

/-- A transient attempt sleeps (when attempts remain) and recurses. -/
theorem downloadLoop_succ_transient (cfg : Config) (t : Nat → TransportResult)
    (purl : String) (rem att : Nat) (evs : List Event)
    (h : attemptOutcome cfg (t att) = (none, evs)) :
    downloadLoop cfg t purl (rem + 1) att =
      ((downloadLoop cfg t purl rem (att + 1)).fst,
        Event.netRequest purl (cfg.timeout + att * 5) ::
          (evs ++ (if att < cfg.max_retries - 1 then [Event.sleep (2 ^ att)] else []) ++
            (downloadLoop cfg t purl rem (att + 1)).snd)) := by
  rcases hd : downloadLoop cfg t purl rem (att + 1) with ⟨r2, evs2⟩
  simp [downloadLoop, h, hd]

/-- The retry loop never touches the file system. -/
theorem downloadLoop_all_readonly (cfg : Config) (t : Nat → TransportResult)
    (purl : String) : ∀ rem att,
    ((downloadLoop cfg t purl rem att).snd).all eventReadonly = true := by
  intro rem
  induction rem with
  | zero => intro att; simp [downloadLoop_zero]
  | succ r ihr =>
    intro att
    have hevs := attempt_events_chunkRead cfg (t att)
    rcases ha : attemptOutcome cfg (t att) with ⟨o, evs⟩
    rw [ha] at hevs
    have hro := all_readonly_of_all_chunkRead evs hevs
    cases o with
    | some rr =>
      rw [downloadLoop_succ_permanent cfg t purl r att rr evs ha]
      simpa [eventReadonly] using hro
    | none =>
      rw [downloadLoop_succ_transient cfg t purl r att evs ha]
      have hih := ihr (att + 1)
      simp only [List.all_cons, List.all_append, Bool.and_eq_true]
      refine ⟨rfl, ⟨hro, ?_⟩, hih⟩
      split <;> simp [eventReadonly]

/-- With at least one attempt left, the loop issues at least one request. -/
theorem downloadLoop_netcount_pos (cfg : Config) (t : Nat → TransportResult)
    (purl : String) (rem att : Nat) (h : 1 ≤ rem) :
    1 ≤ netRequestCount (downloadLoop cfg t purl rem att).snd := by
  cases rem with
  | zero => omega
  | succ r =>
    rcases ha : attemptOutcome cfg (t att) with ⟨o, evs⟩
    cases o with
    | some rr =>
      rw [downloadLoop_succ_permanent cfg t purl r att rr evs ha]
      rw [netRequestCount_cons]
      simp [isNetRequest]
    | none =>
      rw [downloadLoop_succ_transient cfg t purl r att evs ha]
      rw [netRequestCount_cons]
      simp [isNetRequest]

/-- A transport that always times out: the loop fails, issues exactly
`remaining` requests and sleeps `2^i` for each non-final attempt index. -/
theorem downloadLoop_timeout (cfg : Config) (t : Nat → TransportResult)
    (purl : String) (ht : ∀ n, t n = .timeout) : ∀ rem att,
    att + rem = cfg.max_retries →
    (downloadLoop cfg t purl rem att).fst = none ∧
      netRequestCount (downloadLoop cfg t purl rem att).snd = rem ∧
      sleepDurations (downloadLoop cfg t purl rem att).snd
        = (List.range' att (rem - 1)).map (2 ^ ·) := by
  intro rem
  induction rem with
  | zero =>
    intro att hsum
    simp [downloadLoop_zero, netRequestCount, sleepDurations]
  | succ r ihr =>
    intro att hsum
    have ha : attemptOutcome cfg (t att) = (none, []) := by rw [ht att]; rfl
    rw [downloadLoop_succ_transient cfg t purl r att [] ha]
    obtain ⟨ih1, ih2, ih3⟩ := ihr (att + 1) (by omega)
    refine ⟨ih1, ?_, ?_⟩
    · rw [netRequestCount_cons]
      simp only [List.nil_append, isNetRequest, if_pos]
      rw [netRequestCount_append]
      have hz : netRequestCount (if att < cfg.max_retries - 1
          then [Event.sleep (2 ^ att)] else []) = 0 := by
        split <;> simp [netRequestCount, List.countP, List.countP.go, isNetRequest]
      omega
    · rw [sleepDurations_cons]
      simp only [List.nil_append]
      rw [sleepDurations_append, ih3]
      by_cases hlast : att < cfg.max_retries - 1
      · have hr1 : 1 ≤ r := by omega
        rw [if_pos hlast]
        have : sleepDurations [Event.sleep (2 ^ att)] = [2 ^ att] := rfl
        rw [this]
        have hrr : r + 1 - 1 = (r - 1) + 1 := by omega
        rw [hrr, List.range'_succ, List.map_cons]
        rfl
      · have hr0 : r = 0 := by omega
        subst hr0
        rw [if_neg hlast]
        simp [sleepDurations]

/-- Geometric sum: the total of `2^i` over `i` in `range n`. -/
theorem sumPow2 (n : Nat) : ((List.range n).map (2 ^ ·)).sum = 2 ^ n - 1 := by
  induction n with
  | zero => rfl
  | succ k ih =>
    rw [List.range_succ, List.map_append, List.sum_append, ih]
    have h1 : 1 ≤ 2 ^ k := Nat.one_le_two_pow
    simp [List.sum_cons]
    rw [Nat.pow_succ]
    omega

/-! ## Lemmas about `load_image` and its stages -/

theorem load_image_guard (env : Env) (cfg : Config) (url : String)
    (ts : Option (Nat × Nat))
    (h : (url.data.isEmpty || !strStartsWith url "http") = true) :
    load_image env cfg url ts = (.ok none, []) := by
  simp [load_image, h]

theorem load_image_cache_miss (env : Env) (cfg : Config) (url : String)
    (ts : Option (Nat × Nat))
    (hg : (url.data.isEmpty || !strStartsWith url "http") = false)
    (hmiss : is_cache_valid env cfg (get_cache_path cfg url) = false) :
    load_image env cfg url ts = fetchAndProcess env cfg url ts := by
  simp [load_image, hg, hmiss]

theorem load_image_corrupt (env : Env) (cfg : Config) (url : String)
    (ts : Option (Nat × Nat)) (entry : FileEntry)
    (hg : (url.data.isEmpty || !strStartsWith url "http") = false)
    (hfs : env.fs (get_cache_path cfg url) = some entry)
    (hfresh : env.now - entry.mtime < cfg.max_cache_age)
    (hdec : env.decode entry.content = none)
    (hrm : env.removeOk (get_cache_path cfg url) = true) :
    load_image env cfg url ts =
      ((fetchAndProcess env cfg url ts).fst,
        Event.fsRemove (get_cache_path cfg url) :: (fetchAndProcess env cfg url ts).snd) := by
  have hvalid : is_cache_valid env cfg (get_cache_path cfg url) = true := by
    simp [is_cache_valid, hfs, hfresh]
  rcases hf : fetchAndProcess env cfg url ts with ⟨r, evs⟩
  simp [load_image, hg, hvalid, hfs, hdec, hrm, hf]

theorem fetch_download_none (env : Env) (cfg : Config) (url : String)
    (ts : Option (Nat × Nat)) (evs : List Event)
    (h : download_image_with_retry cfg env.transport url = (none, evs)) :
    fetchAndProcess env cfg url ts = (.ok none, evs) := by
  simp [fetchAndProcess, h]

/-- The download stage's requests are all present in the full fetch trace. -/
theorem fetch_netcount_ge (env : Env) (cfg : Config) (url : String)
    (ts : Option (Nat × Nat)) :
    netRequestCount (download_image_with_retry cfg env.transport url).snd ≤
      netRequestCount (fetchAndProcess env cfg url ts).snd := by
  rcases hd : download_image_with_retry cfg env.transport url with ⟨o, evs⟩
  cases o with
  | none => simp [fetchAndProcess, hd]
  | some data =>
    by_cases hemp : data.isEmpty
    · simp [fetchAndProcess, hd, hemp]
    · rcases hp : processDownloaded env (get_cache_path cfg url) data ts with ⟨r2, evs2⟩
      simp only [fetchAndProcess, hd, hemp, hp, Bool.false_eq_true, if_false]
      rw [netRequestCount_append]
      omega

/-- Events of the cache-write stage: a write to the cache path, possibly
followed by removing it again. -/
theorem processDownloaded_events (env : Env) (cp : String) (data : List Nat)
    (ts : Option (Nat × Nat)) :
    ((processDownloaded env cp data ts).snd).all
      (fun e => eventReadonly e || fsTargets cp e) = true := by
  simp only [processDownloaded]
  cases env.decode data with
  | some img => simp [fsTargets, eventReadonly]
  | none =>
    by_cases hrm : env.removeOk cp = true
    · simp [hrm, fsTargets, eventReadonly]
    · simp only [Bool.not_eq_true] at hrm
      simp [hrm, fsTargets, eventReadonly]

/-- Every event of the fetch stage is read-only or targets the cache path of
the original URL. -/
theorem fetchAndProcess_events (env : Env) (cfg : Config) (url : String)
    (ts : Option (Nat × Nat)) :
    ((fetchAndProcess env cfg url ts).snd).all
      (fun e => eventReadonly e || fsTargets (get_cache_path cfg url) e) = true := by
  have hro : ((download_image_with_retry cfg env.transport url).snd).all
      eventReadonly = true :=
    downloadLoop_all_readonly cfg env.transport (apply_image_proxy cfg url)
      cfg.max_retries 0
  rcases hd : download_image_with_retry cfg env.transport url with ⟨o, evs⟩
  rw [hd] at hro
  have hro' := all_or_left evs eventReadonly (fsTargets (get_cache_path cfg url)) hro
  cases o with
  | none => simpa [fetchAndProcess, hd] using hro'
  | some data =>
    by_cases hemp : data.isEmpty
    · simpa [fetchAndProcess, hd, hemp] using hro'
    · rcases hp : processDownloaded env (get_cache_path cfg url) data ts with ⟨r2, evs2⟩
      have hpe := processDownloaded_events env (get_cache_path cfg url) data ts
      rw [hp] at hpe
      simp only [fetchAndProcess, hd, hemp, hp, Bool.false_eq_true, if_false]
      rw [List.all_append]
      simp [hro', hpe]

/-- Every event of `load_image` is read-only or targets the cache path of
the original URL. -/
theorem load_image_events (env : Env) (cfg : Config) (url : String)
    (ts : Option (Nat × Nat)) :
    ((load_image env cfg url ts).snd).all
      (fun e => eventReadonly e || fsTargets (get_cache_path cfg url) e) = true := by
  have hfe := fetchAndProcess_events env cfg url ts
  by_cases hg : (url.data.isEmpty || !strStartsWith url "http") = true
  · rw [load_image_guard env cfg url ts hg]
    rfl
  · simp only [Bool.not_eq_true] at hg
    by_cases hv : is_cache_valid env cfg (get_cache_path cfg url) = true
    · rcases hfs : env.fs (get_cache_path cfg url) with _ | entry
      · simp only [load_image, hg, Bool.false_eq_true, if_false, hv, if_true, hfs]
        exact hfe
      · rcases hdec : env.decode entry.content with _ | img
        · by_cases hrm : env.removeOk (get_cache_path cfg url) = true
          · rcases hf : fetchAndProcess env cfg url ts with ⟨r, evs⟩
            rw [hf] at hfe
            simp only at hfe
            simp only [load_image, hg, Bool.false_eq_true, if_false, hv, if_true,
              hfs, hdec, hrm, hf]
            rw [List.all_cons, Bool.and_eq_true]
            refine ⟨?_, hfe⟩
            simp [fsTargets, eventReadonly]
          · simp only [Bool.not_eq_true] at hrm
            simp [load_image, hg, hv, hfs, hdec, hrm]
        · simp [load_image, hg, hv, hfs, hdec]
    · simp only [Bool.not_eq_true] at hv
      rw [load_image_cache_miss env cfg url ts (by simp [hg]) hv]
      exact hfe

/-! ## Derived trace facts and remaining helpers -/

theorem writeCount_cons (e : Event) (tr : List Event) :
    writeCount (e :: tr) = (if isWrite e then 1 else 0) + writeCount tr := by
  simp [writeCount, List.countP_cons]
  split <;> omega

/-- `load_image` never renames a file. -/
theorem load_image_no_rename (env : Env) (cfg : Config) (url : String)
    (ts : Option (Nat × Nat)) :
    hasRename (load_image env cfg url ts).snd = false := by
  have h := load_image_events env cfg url ts
  rw [List.all_eq_true] at h
  cases hr : hasRename (load_image env cfg url ts).snd with
  | false => rfl
  | true =>
    exfalso
    unfold hasRename at hr
    rw [List.any_eq_true] at hr
    obtain ⟨e, he, hm⟩ := hr
    have := h e he
    cases e <;> simp_all [eventReadonly, fsTargets]

/-- Every write and remove of `load_image` targets the cache path of the
original URL. -/
theorem load_image_fs_paths (env : Env) (cfg : Config) (url : String)
    (ts : Option (Nat × Nat)) :
    ((load_image env cfg url ts).snd).all (fun e => match e with
      | .fsWrite p _ => p == get_cache_path cfg url
      | .fsRemove p => p == get_cache_path cfg url
      | _ => true) = true := by
  have h := load_image_events env cfg url ts
  rw [List.all_eq_true] at *
  intro e he
  have := h e he
  cases e <;> simp_all [eventReadonly, fsTargets]

/-- `img.thumbnail` does not change the image mode. -/
theorem applyTarget_mode (ts : Option (Nat × Nat)) (i : PILImage) :
    (applyTarget ts i).mode = i.mode := by
  cases ts with
  | none => rfl
  | some t =>
    cases t with
    | mk tw th =>
      simp only [applyTarget, thumbnailFit]
      split <;> rfl

/-- A trace with no rename event cannot realize the write-then-rename
discipline. -/
theorem not_writeThenRename_of_no_rename (tr : List Event) (fp : String)
    (h : hasRename tr = false) : ¬ specPutWriteThenRename tr fp := by
  rintro ⟨tmp, d, _, hmem⟩
  unfold hasRename at h
  rw [List.any_eq_false] at h
  have := h _ hmem
  simp at this

/-- Looking a key up in a keyed map built over distinct keys yields the
function value at that key. -/
theorem lookup_map_pair (f : String → Option PILImage) :
    ∀ (l : List String), l.Nodup → ∀ u ∈ l,
      (l.map (fun x => (x, f x))).lookup u = some (f u) := by
  intro l
  induction l with
  | nil => intro _ u hu; cases hu
  | cons a t ih =>
    intro hnd u hu
    by_cases he : u = a
    · subst he
      simp [List.lookup]
    · have hba : (u == a) = false := by simp [he]
      simp only [List.map_cons, List.lookup, hba]
      have hut : u ∈ t := by
        cases hu with
        | head => exact absurd rfl he
        | tail _ h => exact h
      exact ih hnd.of_cons u hut

/-- The batch call is the keyed map over the deduplicated valid URLs. -/
theorem load_images_batch_eq (env : Env) (cfg : Config) (urls : List String)
    (ts : Option (Nat × Nat)) :
    load_images_batch env cfg urls ts
      = ((urls.filter validUrl).dedup).map (fun u => (u, pyBatchValue env cfg ts u)) := by
  unfold load_images_batch
  cases h0 : urls.isEmpty with
  | true =>
    have : urls = [] := List.isEmpty_iff.1 h0
    subst this
    rfl
  | false =>
    simp only [Bool.false_eq_true, if_false]
    cases h1 : (urls.filter validUrl).isEmpty with
    | true =>
      have : urls.filter validUrl = [] := List.isEmpty_iff.1 h1
      rw [this]
      rfl
    | false => simp

/-- The sweep loop succeeds when every listed `.cache` file exists, and the
removed paths are exactly the listed `.cache` files that are strictly older
than the cutoff and whose removal succeeds — a failed removal never stops
the loop. -/
theorem clearLoop_spec (env : Env) (cfg : Config) (maxAge : Nat) :
    ∀ (l : List String),
    (∀ f ∈ l, strEndsWith f ".cache" = true →
      (env.fs (cfg.cache_dir ++ "/" ++ f)).isSome = true) →
    (clearLoop env cfg maxAge l).fst = .ok () ∧
      removedPaths (clearLoop env cfg maxAge l).snd =
        (l.filter (fun f => strEndsWith f ".cache" &&
          (match env.fs (cfg.cache_dir ++ "/" ++ f) with
            | some e => decide (maxAge < env.now - e.mtime)
            | none => false) &&
          env.removeOk (cfg.cache_dir ++ "/" ++ f))).map
            (fun f => cfg.cache_dir ++ "/" ++ f) := by
  intro l
  induction l with
  | nil => intro _; exact ⟨rfl, rfl⟩
  | cons f rest ih =>
    intro hex
    have hrest := ih (fun g hg => hex g (List.mem_cons_of_mem f hg))
    cases hend : strEndsWith f ".cache" with
    | false =>
      have hstep : clearLoop env cfg maxAge (f :: rest)
          = clearLoop env cfg maxAge rest := by
        simp [clearLoop, hend]
      rw [hstep, List.filter_cons]
      simp only [hend, Bool.false_and, Bool.false_eq_true, if_false]
      exact hrest
    | true =>
      have hsome := hex f (List.mem_cons_self f rest) hend
      rcases hfs : env.fs (cfg.cache_dir ++ "/" ++ f) with _ | e
      · rw [hfs] at hsome; simp at hsome
      · by_cases hold : maxAge < env.now - e.mtime
        · by_cases hrm : env.removeOk (cfg.cache_dir ++ "/" ++ f) = true
          · rcases hrec : clearLoop env cfg maxAge rest with ⟨rr, evs⟩
            rw [hrec] at hrest
            have hstep : clearLoop env cfg maxAge (f :: rest)
                = (rr, Event.fsRemove (cfg.cache_dir ++ "/" ++ f) :: evs) := by
              simp [clearLoop, hend, hfs, hold, hrm, hrec]
            constructor
            · rw [hstep]; exact hrest.1
            · rw [hstep, List.filter_cons]
              simp only [hend, hfs, hrm, Bool.true_and, Bool.and_true]
              rw [decide_eq_true hold]
              simp only [if_true, List.map_cons]
              simp only [removedPaths, List.filterMap_cons] at hrest ⊢
              simp [hrest.2]
          · simp only [Bool.not_eq_true] at hrm
            have hstep : clearLoop env cfg maxAge (f :: rest)
                = clearLoop env cfg maxAge rest := by
              simp [clearLoop, hend, hfs, hold, hrm]
            rw [hstep, List.filter_cons]
            simp only [hend, hfs, hrm, Bool.true_and, Bool.and_false,
              Bool.false_eq_true, if_false]
            exact hrest
        · have hstep : clearLoop env cfg maxAge (f :: rest)
              = clearLoop env cfg maxAge rest := by
            simp [clearLoop, hend, hfs, hold]
          rw [hstep, List.filter_cons]
          simp only [hend, hfs, Bool.true_and]
          rw [decide_eq_false hold]
          simp only [Bool.false_and, Bool.false_eq_true, if_false]
          exact hrest

/-! ## Claim C1 -/

/-- Counterexample to claim C1 as stated: the string `"httpx"` starts with
neither `http://` nor `https://`, yet `load_image` issues a transport
request for it, because the code's pre-flight check is only
`url.startswith('http')`. -/
theorem c1_counterexample :
    strStartsWith "httpx" "http://" = false ∧
      strStartsWith "httpx" "https://" = false ∧
      netRequestCount (load_image env404 defaultConfig "httpx" none).snd = 1 := by
  refine ⟨by decide, by decide, ?_⟩
  decide

/-- Claim C1 (amended): for every input string that is empty or does not
start with `http` (the code's actual pre-flight check), `load_image`
returns absent having performed no effect at all — in particular no
transport request is issued. -/
theorem c1_reject_before_network (env : Env) (cfg : Config) (url : String)
    (ts : Option (Nat × Nat))
    (h : (url.data.isEmpty || !strStartsWith url "http") = true) :
    (load_image env cfg url ts).fst = .ok none ∧
      (load_image env cfg url ts).snd = [] := by
  rw [load_image_guard env cfg url ts h]
  exact ⟨rfl, rfl⟩

/-- Witness for C1: the rejection happens on the concrete string
`"nota-url"` against the default configuration. -/
theorem c1_reject_before_network_witness :
    (load_image baseEnv defaultConfig "nota-url" none).fst = .ok none ∧
      (load_image baseEnv defaultConfig "nota-url" none).snd = [] :=
  c1_reject_before_network baseEnv defaultConfig "nota-url" none (by decide)

/-! ## Claim C2 -/

/-- Counterexample to claim C2 as stated: with input `["httpfoo"]` the batch
result has key set `{"httpfoo"}`, although `"httpfoo"` is not a valid
http(s) URL — the filter only demands the prefix `http`. -/
theorem c2_counterexample :
    ((load_images_batch baseEnv defaultConfig ["httpfoo"] none).map Prod.fst
        = ["httpfoo"]) ∧
      strStartsWith "httpfoo" "http://" = false ∧
      strStartsWith "httpfoo" "https://" = false := by
  refine ⟨?_, by decide, by decide⟩
  decide

/-- Claim C2 (amended): the batch result's key set is exactly the set of
input URLs passing the code's filter (non-empty and starting with `http`),
each key occurring exactly once; every key maps to its own `load_image`
outcome, an exception escaping one URL's pipeline collapsing to an absent
entry for that URL only — so no exception escapes the batch call and no
URL's failure disturbs a sibling's entry. -/
theorem c2_batch_isolation (env : Env) (cfg : Config) (urls : List String)
    (ts : Option (Nat × Nat)) :
    ((load_images_batch env cfg urls ts).map Prod.fst
        = (urls.filter validUrl).dedup) ∧
      ((load_images_batch env cfg urls ts).map Prod.fst).Nodup ∧
      (∀ u, u ∈ (urls.filter validUrl).dedup →
        (load_images_batch env cfg urls ts).lookup u
          = some (pyBatchValue env cfg ts u)) ∧
      (∀ u, u ∈ (urls.filter validUrl).dedup →
        (load_image env cfg u ts).fst = .exc →
        (load_images_batch env cfg urls ts).lookup u = some none) := by
  have hkeys : (load_images_batch env cfg urls ts).map Prod.fst
      = (urls.filter validUrl).dedup := by
    rw [load_images_batch_eq env cfg urls ts, List.map_map]
    have hcomp : (Prod.fst ∘ fun u => (u, pyBatchValue env cfg ts u)) = id := rfl
    rw [hcomp, List.map_id]
  have hnd : ((urls.filter validUrl).dedup).Nodup := List.nodup_dedup _
  have hlook : ∀ u, u ∈ (urls.filter validUrl).dedup →
      (load_images_batch env cfg urls ts).lookup u
        = some (pyBatchValue env cfg ts u) := by
    intro u hu
    rw [load_images_batch_eq env cfg urls ts]
    exact lookup_map_pair (pyBatchValue env cfg ts) _ hnd u hu
  refine ⟨hkeys, by rw [hkeys]; exact hnd, hlook, ?_⟩
  intro u hu hexc
  have := hlook u hu
  rw [this]
  unfold pyBatchValue
  rw [hexc]

/-- Witness for C2: in a five-URL batch (two invalid entries, one
duplicate), the key `"http://a"` maps to its own `load_image` outcome; and
a URL whose `load_image` raises (corrupt cache entry whose removal fails)
gets an absent entry. -/
theorem c2_batch_isolation_witness :
    ((load_images_batch baseEnv defaultConfig
        ["http://a", "", "httpz", "nope", "http://a"] none).lookup "http://a"
      = some (pyBatchValue baseEnv defaultConfig none "http://a")) ∧
      ((load_images_batch envCorruptNoRemove defaultConfig ["http://b"] none).lookup
          "http://b" = some none) := by
  constructor
  · exact (c2_batch_isolation baseEnv defaultConfig
      ["http://a", "", "httpz", "nope", "http://a"] none).2.2.1 "http://a" (by decide)
  · exact (c2_batch_isolation envCorruptNoRemove defaultConfig ["http://b"]
      none).2.2.2 "http://b" (by decide) rfl

/-! ## Claim C3 -/

/-- Counterexample to claim C3: a successful fresh download performs exactly
one cache write, yet the trace of the call contains no rename whatsoever,
so the blob was not written to a temporary path and renamed into place. -/
theorem c3_counterexample :
    writeCount (load_image baseEnv defaultConfig "http://c3" none).snd = 1 ∧
      ¬ specPutWriteThenRename (load_image baseEnv defaultConfig "http://c3" none).snd
        (get_cache_path defaultConfig "http://c3") := by
  constructor
  · decide
  · apply not_writeThenRename_of_no_rename
    decide

/-- Claim C3 (amended): the cache put is a direct write of the blob to the
final cache path — no run of `load_image` ever renames a file, and every
write event targets `get_cache_path` of the requested URL itself, so the
write-to-temporary-then-rename discipline is absent from the code. -/
theorem c3_put_is_direct_write (env : Env) (cfg : Config) (url : String)
    (ts : Option (Nat × Nat)) :
    hasRename (load_image env cfg url ts).snd = false ∧
      ((load_image env cfg url ts).snd).all (fun e => match e with
        | .fsWrite p _ => p == get_cache_path cfg url
        | _ => true) = true := by
  refine ⟨load_image_no_rename env cfg url ts, ?_⟩
  have h := load_image_fs_paths env cfg url ts
  rw [List.all_eq_true] at *
  intro e he
  have := h e he
  cases e <;> simp_all

/-! ## Claim C4 -/

/-- Claim C4: the cache key is a deterministic function of the original URL
(and cache directory) alone — toggling `proxy_enabled`, `proxy_width` or
`proxy_quality` leaves `get_cache_path` unchanged; every cache write or
removal performed by `load_image` targets the cache path of the original
URL; and the download stage (the only place the proxy-rewritten URL is
used) touches no file at all. -/
theorem c4_cache_key_from_original_url (cfg : Config) (url : String)
    (pe : Bool) (pw pq : String) (env : Env) (ts : Option (Nat × Nat)) :
    get_cache_path { cfg with proxy_enabled := pe, proxy_width := pw, proxy_quality := pq } url
        = get_cache_path cfg url ∧
      ((load_image env cfg url ts).snd).all (fun e => match e with
        | .fsWrite p _ => p == get_cache_path cfg url
        | .fsRemove p => p == get_cache_path cfg url
        | _ => true) = true ∧
      ((download_image_with_retry cfg env.transport url).snd).all
        eventReadonly = true := by
  refine ⟨rfl, load_image_fs_paths env cfg url ts, ?_⟩
  exact downloadLoop_all_readonly cfg env.transport (apply_image_proxy cfg url)
    cfg.max_retries 0

/-! ## Claim C5 -/

/-- Claim C5: when the first attempt's response either advertises a content
length above `max_image_size` or streams more accumulated bytes than
`max_image_size`, `load_image` returns absent after exactly one transport
request (no retry, no back-off sleep), writes no cache file, and stops
consuming the body at the chunk where the cap is passed: zero chunks are
read in the header case, and at most `j+1` chunks whenever the cap is
already exceeded within the first `j+1` chunks. -/
theorem c5_size_cap_aborts (env : Env) (cfg : Config) (url : String)
    (ts : Option (Nat × Nat)) (status : Nat) (cl : Option Nat)
    (chunks : List (List Nat))
    (hg : (url.data.isEmpty || !strStartsWith url "http") = false)
    (hmiss : is_cache_valid env cfg (get_cache_path cfg url) = false)
    (hr : 1 ≤ cfg.max_retries)
    (ht : env.transport 0 = .response status cl chunks)
    (hst : status < 400)
    (hover : (∃ n, cl = some n ∧ cfg.max_image_size < n) ∨
      cfg.max_image_size < sumLens chunks) :
    (load_image env cfg url ts).fst = .ok none ∧
      netRequestCount (load_image env cfg url ts).snd = 1 ∧
      sleepDurations (load_image env cfg url ts).snd = [] ∧
      writeCount (load_image env cfg url ts).snd = 0 ∧
      (∀ n, cl = some n → cfg.max_image_size < n →
        chunkReadCount (load_image env cfg url ts).snd = 0) ∧
      (∀ j, cfg.max_image_size < sumLens (chunks.take (j + 1)) →
        chunkReadCount (load_image env cfg url ts).snd ≤ j + 1) := by
  obtain ⟨hfst, hhdr, hbnd⟩ := attempt_oversized cfg status cl chunks hst hover
  have hck := attempt_events_chunkRead cfg (.response status cl chunks)
  rcases hA : attemptOutcome cfg (.response status cl chunks) with ⟨o, evs⟩
  rw [hA] at hfst hhdr hbnd hck
  simp only at hfst hhdr hbnd hck
  subst hfst
  obtain ⟨r, hrr⟩ : ∃ r, cfg.max_retries = r + 1 := ⟨cfg.max_retries - 1, by omega⟩
  have hAt : attemptOutcome cfg (env.transport 0) = (some none, evs) := by
    rw [ht]; exact hA
  have hD : download_image_with_retry cfg env.transport url
      = (none, Event.netRequest (apply_image_proxy cfg url) (cfg.timeout + 0 * 5) :: evs) := by
    unfold download_image_with_retry
    rw [hrr]
    exact downloadLoop_succ_permanent cfg env.transport (apply_image_proxy cfg url)
      r 0 none evs hAt
  have hL : load_image env cfg url ts
      = (.ok none, Event.netRequest (apply_image_proxy cfg url) (cfg.timeout + 0 * 5) :: evs) := by
    rw [load_image_cache_miss env cfg url ts hg hmiss]
    exact fetch_download_none env cfg url ts _ hD
  rw [hL]
  obtain ⟨hn0, hs0, hw0, hc0, _⟩ := counts_of_all_chunkRead evs hck
  refine ⟨rfl, ?_, ?_, ?_, ?_, ?_⟩
  · rw [netRequestCount_cons]
    simp [isNetRequest, hn0]
  · rw [sleepDurations_cons]
    simp [hs0]
  · rw [writeCount_cons]
    simp [isWrite, hw0]
  · intro n hcl hlt
    have hevs : evs = [] := hhdr n hcl hlt
    subst hevs
    rw [chunkReadCount_cons]
    simp [isChunkRead, chunkReadCount]
  · intro j hj
    have hlen := hbnd j hj
    rw [chunkReadCount_cons]
    have hreq : isChunkRead (Event.netRequest (apply_image_proxy cfg url)
        (cfg.timeout + 0 * 5)) = false := rfl
    rw [hreq]
    simp only [Bool.false_eq_true, if_false]
    omega

/-- Witness for C5 on both triggers: against a 4-byte cap, a transport
streaming 3+3+2 bytes without a length header aborts during the second of
three chunks; a transport declaring 99 bytes up front aborts before reading
any chunk.  Both return absent after one request and write nothing. -/
theorem c5_size_cap_aborts_witness :
    (load_image envStream cfgTiny "http://s" none).fst = .ok none ∧
      netRequestCount (load_image envStream cfgTiny "http://s" none).snd = 1 ∧
      writeCount (load_image envStream cfgTiny "http://s" none).snd = 0 ∧
      chunkReadCount (load_image envStream cfgTiny "http://s" none).snd ≤ 2 ∧
      (load_image envHeader cfgTiny "http://h" none).fst = .ok none ∧
      chunkReadCount (load_image envHeader cfgTiny "http://h" none).snd = 0 := by
  have h1 := c5_size_cap_aborts envStream cfgTiny "http://s" none 200 none
    [[1, 1, 1], [1, 1, 1], [9, 9]] (by decide) rfl (by decide) rfl (by decide)
    (Or.inr (by decide))
  have h2 := c5_size_cap_aborts envHeader cfgTiny "http://h" none 200 (some 99)
    [[1, 2, 3]] (by decide) rfl (by decide) rfl (by decide)
    (Or.inl ⟨99, rfl, by decide⟩)
  exact ⟨h1.1, h1.2.1, h1.2.2.2.1, h1.2.2.2.2.2 1 (by decide), h2.1,
    h2.2.2.2.2.1 99 rfl (by decide)⟩

/-! ## Claim C6 -/

/-- Claim C6: against a transport that always times out, `load_image` (on a
cache miss) issues exactly `max_retries` transport requests, sleeps
`2^attempt` between consecutive attempts and never after the last — the
sleep list is exactly `[2^0, ..., 2^(max_retries-2)]` — so the total
back-off time is the geometric sum `2^(max_retries-1) - 1`, and the outcome
is absent. -/
theorem c6_timeout_backoff (env : Env) (cfg : Config) (url : String)
    (ts : Option (Nat × Nat))
    (hg : (url.data.isEmpty || !strStartsWith url "http") = false)
    (hmiss : is_cache_valid env cfg (get_cache_path cfg url) = false)
    (ht : ∀ n, env.transport n = .timeout) :
    (load_image env cfg url ts).fst = .ok none ∧
      netRequestCount (load_image env cfg url ts).snd = cfg.max_retries ∧
      sleepDurations (load_image env cfg url ts).snd
        = (List.range (cfg.max_retries - 1)).map (2 ^ ·) ∧
      (sleepDurations (load_image env cfg url ts).snd).sum
        = 2 ^ (cfg.max_retries - 1) - 1 := by
  obtain ⟨h1, h2, h3⟩ := downloadLoop_timeout cfg env.transport
    (apply_image_proxy cfg url) ht cfg.max_retries 0 (by omega)
  rcases hd : downloadLoop cfg env.transport (apply_image_proxy cfg url)
      cfg.max_retries 0 with ⟨o, evs⟩
  rw [hd] at h1 h2 h3
  simp only at h1 h2 h3
  subst h1
  have hD : download_image_with_retry cfg env.transport url = (none, evs) := by
    unfold download_image_with_retry
    exact hd
  have hL : load_image env cfg url ts = (.ok none, evs) := by
    rw [load_image_cache_miss env cfg url ts hg hmiss]
    exact fetch_download_none env cfg url ts evs hD
  rw [hL]
  refine ⟨rfl, h2, ?_, ?_⟩
  · rw [List.range_eq_range']
    exact h3
  · rw [h3, ← List.range_eq_range']
    exact sumPow2 (cfg.max_retries - 1)

/-- Witness for C6: with the default configuration (three retries), an
always-timing-out transport yields three requests, the sleep list `[1, 2]`
and total back-off `3`. -/
theorem c6_timeout_backoff_witness :
    (load_image envTimeout defaultConfig "http://t" none).fst = .ok none ∧
      netRequestCount (load_image envTimeout defaultConfig "http://t" none).snd = 3 ∧
      sleepDurations (load_image envTimeout defaultConfig "http://t" none).snd = [1, 2] ∧
      (sleepDurations (load_image envTimeout defaultConfig "http://t" none).snd).sum = 3 := by
  have h := c6_timeout_backoff envTimeout defaultConfig "http://t" none
    (by decide) rfl (fun n => rfl)
  refine ⟨h.1, h.2.1, ?_, ?_⟩
  · rw [h.2.2.1]; decide
  · rw [h.2.2.2]; decide

/-! ## Claim C7 -/

/-- Claim C7: an HTTP 404 on the first attempt is permanent — `load_image`
(on a cache miss) calls the transport exactly once, sleeps no back-off,
reads no body chunk, writes nothing, and returns absent. -/
theorem c7_404_no_retry (env : Env) (cfg : Config) (url : String)
    (ts : Option (Nat × Nat)) (cl : Option Nat) (chunks : List (List Nat))
    (hg : (url.data.isEmpty || !strStartsWith url "http") = false)
    (hmiss : is_cache_valid env cfg (get_cache_path cfg url) = false)
    (hr : 1 ≤ cfg.max_retries)
    (ht : env.transport 0 = .response 404 cl chunks) :
    (load_image env cfg url ts).fst = .ok none ∧
      netRequestCount (load_image env cfg url ts).snd = 1 ∧
      sleepDurations (load_image env cfg url ts).snd = [] ∧
      writeCount (load_image env cfg url ts).snd = 0 ∧
      chunkReadCount (load_image env cfg url ts).snd = 0 := by
  obtain ⟨r, hrr⟩ : ∃ r, cfg.max_retries = r + 1 := ⟨cfg.max_retries - 1, by omega⟩
  have hAt : attemptOutcome cfg (env.transport 0) = (some none, []) := by
    rw [ht]; exact attempt_404 cfg cl chunks
  have hD : download_image_with_retry cfg env.transport url
      = (none, [Event.netRequest (apply_image_proxy cfg url) (cfg.timeout + 0 * 5)]) := by
    unfold download_image_with_retry
    rw [hrr]
    exact downloadLoop_succ_permanent cfg env.transport (apply_image_proxy cfg url)
      r 0 none [] hAt
  have hL : load_image env cfg url ts
      = (.ok none, [Event.netRequest (apply_image_proxy cfg url) (cfg.timeout + 0 * 5)]) := by
    rw [load_image_cache_miss env cfg url ts hg hmiss]
    exact fetch_download_none env cfg url ts _ hD
  rw [hL]
  refine ⟨rfl, ?_, ?_, ?_, ?_⟩
  · rw [netRequestCount_cons]
    simp [isNetRequest, netRequestCount]
  · rw [sleepDurations_cons]
    simp [sleepDurations]
  · rw [writeCount_cons]
    simp [isWrite, writeCount]
  · rw [chunkReadCount_cons]
    simp [isChunkRead, chunkReadCount]

/-- Witness for C7: a 404-answering transport with the default
configuration is consulted exactly once and the call returns absent. -/
theorem c7_404_no_retry_witness :
    (load_image env404 defaultConfig "http://f" none).fst = .ok none ∧
      netRequestCount (load_image env404 defaultConfig "http://f" none).snd = 1 ∧
      sleepDurations (load_image env404 defaultConfig "http://f" none).snd = [] ∧
      writeCount (load_image env404 defaultConfig "http://f" none).snd = 0 ∧
      chunkReadCount (load_image env404 defaultConfig "http://f" none).snd = 0 :=
  c7_404_no_retry env404 defaultConfig "http://f" none none []
    (by decide) rfl (by decide) rfl

/-! ## Claim C8 -/

/-- Counterexample to claim C8: an image served from a fresh cache entry is
returned exactly as it decodes — here in mode `RGBA` — because the
`convert('RGB')` step exists only on the download path (lines 183-185), not
on the cache-hit path (lines 156-165). -/
theorem c8_counterexample :
    (load_image envCacheHit defaultConfig "http://r" none).fst
        = .ok (some { mode := "RGBA", width := 6, height := 4 }) ∧
      ("RGBA" : String) ≠ "RGB" := by
  exact ⟨rfl, by decide⟩

/-- Claim C8 (amended): only freshly downloaded images are normalized — on a
cache miss, any image `load_image` returns has had an `RGBA`, `LA` or `P`
(alpha or indexed) representation converted to `RGB`, so its mode is none of
those three; images served from the cache are returned in their stored mode
without conversion (see the counterexample). -/
theorem c8_download_path_normalizes (env : Env) (cfg : Config) (url : String)
    (ts : Option (Nat × Nat)) (img : PILImage)
    (hmiss : is_cache_valid env cfg (get_cache_path cfg url) = false)
    (hres : (load_image env cfg url ts).fst = .ok (some img)) :
    img.mode ≠ "RGBA" ∧ img.mode ≠ "LA" ∧ img.mode ≠ "P" := by
  by_cases hg : (url.data.isEmpty || !strStartsWith url "http") = true
  · rw [load_image_guard env cfg url ts hg] at hres
    simp at hres
  · simp only [Bool.not_eq_true] at hg
    rw [load_image_cache_miss env cfg url ts hg hmiss] at hres
    unfold fetchAndProcess at hres
    rcases hd : download_image_with_retry cfg env.transport url with ⟨o, evs⟩
    rw [hd] at hres
    cases o with
    | none => simp at hres
    | some data =>
      by_cases hemp : data.isEmpty = true
      · simp [hemp] at hres
      · simp only [Bool.not_eq_true] at hemp
        simp only [hemp, Bool.false_eq_true, if_false] at hres
        unfold processDownloaded at hres
        rcases hdec : env.decode data with _ | img0
        · rw [hdec] at hres
          by_cases hrm : env.removeOk (get_cache_path cfg url) = true
          · simp [hrm] at hres
          · simp only [Bool.not_eq_true] at hrm
            simp [hrm] at hres
        · rw [hdec] at hres
          simp only [PyResult.ok.injEq, Option.some.injEq] at hres
          have himg : img = applyTarget ts
              (if img0.mode = "RGBA" ∨ img0.mode = "LA" ∨ img0.mode = "P"
                then convertRGB img0 else img0) := hres.symm
          rw [himg, applyTarget_mode]
          by_cases hcond : img0.mode = "RGBA" ∨ img0.mode = "LA" ∨ img0.mode = "P"
          · rw [if_pos hcond]
            simp [convertRGB]
          · rw [if_neg hcond]
            push_neg at hcond
            exact ⟨hcond.1, hcond.2.1, hcond.2.2⟩

/-- Witness for C8: a fresh download whose bytes decode to an RGBA image is
returned in mode `RGB` — which is not an alpha or indexed mode. -/
theorem c8_download_path_normalizes_witness :
    ({ mode := "RGB", width := 6, height := 4 } : PILImage).mode ≠ "RGBA" ∧
      ({ mode := "RGB", width := 6, height := 4 } : PILImage).mode ≠ "LA" ∧
      ({ mode := "RGB", width := 6, height := 4 } : PILImage).mode ≠ "P" :=
  c8_download_path_normalizes baseEnv defaultConfig "http://w8" none
    { mode := "RGB", width := 6, height := 4 } rfl rfl

/-! ## Claim C9 -/

/-- Claim C9: when the cached blob for a valid URL is fresh but fails to
decode (and its removal succeeds), the very same `load_image` call removes
the corrupted cache file and continues with the network path: the call
equals the fetch pipeline's own result with the removal of the cache path
prepended to its trace, and — when at least one retry is configured — the
trace contains a transport request. -/
theorem c9_corrupt_cache_self_heal (env : Env) (cfg : Config) (url : String)
    (ts : Option (Nat × Nat)) (entry : FileEntry)
    (hg : (url.data.isEmpty || !strStartsWith url "http") = false)
    (hfs : env.fs (get_cache_path cfg url) = some entry)
    (hfresh : env.now - entry.mtime < cfg.max_cache_age)
    (hdec : env.decode entry.content = none)
    (hrm : env.removeOk (get_cache_path cfg url) = true) :
    load_image env cfg url ts
        = ((fetchAndProcess env cfg url ts).fst,
           Event.fsRemove (get_cache_path cfg url) :: (fetchAndProcess env cfg url ts).snd) ∧
      (1 ≤ cfg.max_retries →
        1 ≤ netRequestCount (load_image env cfg url ts).snd) := by
  have hLI := load_image_corrupt env cfg url ts entry hg hfs hfresh hdec hrm
  refine ⟨hLI, ?_⟩
  intro hr
  rw [hLI]
  have h1 : 1 ≤ netRequestCount
      (download_image_with_retry cfg env.transport url).snd :=
    downloadLoop_netcount_pos cfg env.transport (apply_image_proxy cfg url)
      cfg.max_retries 0 hr
  have h2 := fetch_netcount_ge env cfg url ts
  rw [netRequestCount_cons]
  have hreq : isNetRequest (Event.fsRemove (get_cache_path cfg url)) = false := rfl
  rw [hreq]
  simp only [Bool.false_eq_true, if_false]
  omega

/-- Witness for C9: a fresh-but-undecodable cache entry with an
always-timing-out transport is removed and the network path is taken. -/
theorem c9_corrupt_cache_self_heal_witness :
    (load_image envCorrupt defaultConfig "http://c9" none
        = ((fetchAndProcess envCorrupt defaultConfig "http://c9" none).fst,
           Event.fsRemove (get_cache_path defaultConfig "http://c9") ::
             (fetchAndProcess envCorrupt defaultConfig "http://c9" none).snd)) ∧
      1 ≤ netRequestCount (load_image envCorrupt defaultConfig "http://c9" none).snd := by
  have h := c9_corrupt_cache_self_heal envCorrupt defaultConfig "http://c9" none
    ⟨[7], 0⟩ (by decide) rfl (by decide) rfl rfl
  exact ⟨h.1, h.2 (by decide)⟩

/-! ## Claim C10 -/

/-- Counterexample to claim C10: a sweep that does remove one stale entry
still returns Python `None` — the function body has no `return` with a
value, so the removed count is logged but never returned as an integer. -/
theorem c10_counterexample :
    removedPaths (clear_cache envSweepOne defaultConfig 1).snd
        = ["image_cache/old.cache"] ∧
      (clear_cache envSweepOne defaultConfig 1).fst = .ok none ∧
      (PyResult.ok (none : Option Nat)) ≠ .ok (some 1) := by
  refine ⟨by decide, rfl, by decide⟩

/-- Claim C10 (amended): `clear_cache(maxAgeHours)` scans the cache
directory and deletes exactly the listed `.cache` entries strictly older
than `maxAgeHours * 3600` seconds whose removal succeeds, continuing past
individual deletion failures; but it returns no value (Python `None`) — the
removed count is only logged, never returned. -/
theorem c10_sweep_returns_none (env : Env) (cfg : Config) (hours : Nat)
    (hdir : env.dirExists = true)
    (hex : ∀ f ∈ env.listing, strEndsWith f ".cache" = true →
      (env.fs (cfg.cache_dir ++ "/" ++ f)).isSome = true) :
    (clear_cache env cfg hours).fst = .ok none ∧
      removedPaths (clear_cache env cfg hours).snd =
        (env.listing.filter (fun f => strEndsWith f ".cache" &&
          (match env.fs (cfg.cache_dir ++ "/" ++ f) with
            | some e => decide (hours * 3600 < env.now - e.mtime)
            | none => false) &&
          env.removeOk (cfg.cache_dir ++ "/" ++ f))).map
            (fun f => cfg.cache_dir ++ "/" ++ f) := by
  obtain ⟨h1, h2⟩ := clearLoop_spec env cfg (hours * 3600) env.listing hex
  rcases hc : clearLoop env cfg (hours * 3600) env.listing with ⟨rr, evs⟩
  rw [hc] at h1 h2
  simp only at h1 h2
  subst h1
  have hstep : clear_cache env cfg hours = (.ok none, evs) := by
    simp [clear_cache, hdir, hc]
  rw [hstep]
  exact ⟨rfl, h2⟩

/-- Witness for C10: sweeping a directory with two stale entries (one
undeletable), one fresh entry and one foreign file removes exactly the one
removable stale entry, and the call still returns `None`. -/
theorem c10_sweep_returns_none_witness :
    (clear_cache envSweepMany defaultConfig 1).fst = .ok none ∧
      removedPaths (clear_cache envSweepMany defaultConfig 1).snd
        = ["image_cache/old1.cache"] := by
  have h := c10_sweep_returns_none envSweepMany defaultConfig 1 rfl (by decide)
  refine ⟨h.1, ?_⟩
  rw [h.2]
  decide
